import Mathlib

/-!
Verification development for the interactive thread-cleanup tool
(src/thread-cleanup/delete.py, class ThreadCleanup).

The Python source is shallowly embedded: dictionaries become insertion-ordered
association lists, Python `int(...)` and `str.lower()` become explicit partial
functions, `datetime.fromisoformat(...).timestamp()` becomes an executable
ISO-8601 parser returning epoch seconds (naive datetimes are interpreted in
UTC, matching a UTC-local environment), and the HTTP delete / pagination loops
become folds over explicit outcome data.
-/

/-! ## Python scalar helpers -/

/-- ASCII decimal digit test. -/
def isDigitChar (c : Char) : Bool := '0' ≤ c && c ≤ '9'

/-- Value of a list of decimal digit characters, most significant first. -/
def digitsVal (ds : List Char) : Nat := ds.foldl (fun a c => a * 10 + (c.toNat - 48)) 0

/-- Model of Python `int(s)` on decimal strings: optional surrounding
whitespace, optional sign, then one or more digits; `none` models a raised
`ValueError`. -/
def pyInt (s : String) : Option Int :=
  let t := ((s.toList.dropWhile Char.isWhitespace).reverse.dropWhile Char.isWhitespace).reverse
  match t with
  | '+' :: ds => if !ds.isEmpty && ds.all isDigitChar then some (digitsVal ds) else none
  | '-' :: ds => if !ds.isEmpty && ds.all isDigitChar then some (-(digitsVal ds : Int)) else none
  | ds => if !ds.isEmpty && ds.all isDigitChar then some (digitsVal ds) else none

/-- ASCII lowercase of one character. -/
def lowerChar (c : Char) : Char :=
  if 'A' ≤ c && c ≤ 'Z' then Char.ofNat (c.toNat + 32) else c

/-- Model of Python `s.lower()` (ASCII range, which covers the literals the
tool compares against). -/
def pyLower (s : String) : String := String.mk (s.toList.map lowerChar)

/-- Model of Python `s.replace("Z", "+00:00")` as used on `created_at`
values before `datetime.fromisoformat`. -/
def pyReplaceZ (s : String) : String :=
  String.mk ((s.toList.map (fun c => if c = 'Z' then "+00:00".toList else [c])).flatten)

/-! ## ISO-8601 timestamp parsing (model of `datetime.fromisoformat(...).timestamp()`)

The tool only ever feeds `fromisoformat` strings of the shapes
`YYYY-MM-DD`, `YYYY-MM-DD HH:MM`, `YYYY-MM-DD HH:MM:SS` (separator space or
`T`) optionally followed by a `+HH:MM` / `-HH:MM` offset (produced by the `Z`
replacement).  The parser below accepts exactly these shapes, validates the
calendar fields the way `fromisoformat` does, and returns epoch seconds.
Naive datetimes (no offset) are interpreted in UTC. -/

/-- Parse exactly `n` leading decimal digits, returning their value and the
rest of the input. -/
def parseNDigits : Nat → List Char → Option (Nat × List Char)
  | 0, cs => some (0, cs)
  | n + 1, c :: cs =>
    if isDigitChar c then
      match parseNDigits n cs with
      | some (v, rest) => some ((c.toNat - 48) * 10 ^ n + v, rest)
      | none => none
    else none
  | _ + 1, [] => none

/-- Consume one expected character. -/
def expectChar (c : Char) : List Char → Option (List Char)
  | x :: rest => if x = c then some rest else none
  | [] => none

/-- Gregorian leap-year test. -/
def isLeap (y : Nat) : Bool := y % 4 = 0 && (y % 100 ≠ 0 || y % 400 = 0)

/-- Number of days in month `m` of year `y` (months are 1-based). -/
def daysInMonth (y m : Nat) : Nat :=
  match m with
  | 1 => 31 | 2 => if isLeap y then 29 else 28 | 3 => 31 | 4 => 30
  | 5 => 31 | 6 => 30 | 7 => 31 | 8 => 31 | 9 => 30 | 10 => 31
  | 11 => 30 | 12 => 31 | _ => 0

/-- Days in year `y` strictly before month `m`. -/
def daysBeforeMonth (y m : Nat) : Nat :=
  let base :=
    match m with
    | 1 => 0 | 2 => 31 | 3 => 59 | 4 => 90 | 5 => 120 | 6 => 151
    | 7 => 181 | 8 => 212 | 9 => 243 | 10 => 273 | 11 => 304 | 12 => 334
    | _ => 0
  if 3 ≤ m && isLeap y then base + 1 else base

/-- Days from 0001-01-01 (day 0) to the given civil date. -/
def rataDie (y m d : Nat) : Nat :=
  (y - 1) * 365 + (y - 1) / 4 - (y - 1) / 100 + (y - 1) / 400 + daysBeforeMonth y m + (d - 1)

/-- `rataDie` of the Unix epoch 1970-01-01. -/
def epochRataDie : Nat := 719162

/-- Epoch seconds of a civil date plus seconds-within-day minus a UTC offset. -/
def civilTs (y m d secs : Nat) (off : Int) : Int :=
  ((rataDie y m d : Int) - (epochRataDie : Int)) * 86400 + (secs : Int) - off

/-- Parse `HH:MM` or `HH:MM:SS`, returning seconds within the day and the
rest of the input. -/
def parseClock (cs : List Char) : Option (Nat × List Char) :=
  match parseNDigits 2 cs with
  | none => none
  | some (h, cs1) =>
    match expectChar ':' cs1 with
    | none => none
    | some cs2 =>
      match parseNDigits 2 cs2 with
      | none => none
      | some (mi, cs3) =>
        if h ≤ 23 && mi ≤ 59 then
          match expectChar ':' cs3 with
          | none => some (h * 3600 + mi * 60, cs3)
          | some cs4 =>
            match parseNDigits 2 cs4 with
            | none => none
            | some (s, cs5) => if s ≤ 59 then some (h * 3600 + mi * 60 + s, cs5) else none
        else none

/-- Parse a trailing `HH:MM` UTC-offset body (after the sign), returning the
offset in seconds; the input must end afterwards. -/
def parseOffsetBody (cs : List Char) : Option Nat :=
  match parseNDigits 2 cs with
  | none => none
  | some (oh, cs1) =>
    match expectChar ':' cs1 with
    | none => none
    | some cs2 =>
      match parseNDigits 2 cs2 with
      | some (om, []) => if oh ≤ 23 && om ≤ 59 then some (oh * 3600 + om * 60) else none
      | _ => none

/-- Model of `datetime.fromisoformat(s).timestamp()` on the string shapes the
tool produces; `none` models a raised `ValueError`.  Naive datetimes are
interpreted with a zero offset (UTC-local environment). -/
def parsePyIso (s : String) : Option Int :=
  match parseNDigits 4 s.toList with
  | none => none
  | some (y, cs1) =>
    match expectChar '-' cs1 with
    | none => none
    | some cs2 =>
      match parseNDigits 2 cs2 with
      | none => none
      | some (mo, cs3) =>
        match expectChar '-' cs3 with
        | none => none
        | some cs4 =>
          match parseNDigits 2 cs4 with
          | none => none
          | some (d, cs5) =>
            if 1 ≤ y && 1 ≤ mo && mo ≤ 12 && 1 ≤ d && d ≤ daysInMonth y mo then
              match cs5 with
              | [] => some (civilTs y mo d 0 0)
              | sep :: rest =>
                if sep = ' ' || sep = 'T' then
                  match parseClock rest with
                  | none => none
                  | some (secs, cs6) =>
                    match cs6 with
                    | [] => some (civilTs y mo d secs 0)
                    | '+' :: r =>
                      match parseOffsetBody r with
                      | some off => some (civilTs y mo d secs (off : Int))
                      | none => none
                    | '-' :: r =>
                      match parseOffsetBody r with
                      | some off => some (civilTs y mo d secs (-(off : Int)))
                      | none => none
                    | _ => none
                else none
            else none

/-! ## The thread data model -/

/-- A thread resource as fetched from the server.  `runs` is the ordered list
of run records (only the count is consulted); `metadata` is the optional
metadata mapping, embedded as an association list; `none` fields model absent
keys. -/
structure Thread where
  thread_id : String
  created_at : Option String
  status : Option String
  runs : List String
  metadata : Option (List (String × String))
deriving DecidableEq

/-- First-match lookup in an association list (Python `dict.get`). -/
def lookupAssoc (k : String) : List (String × String) → Option String
  | [] => none
  | (k', v) :: rest => if k' = k then some v else lookupAssoc k rest

/-- `thread.get('status', 'unknown')`. -/
def statusKey (t : Thread) : String := t.status.getD "unknown"

/-- The run-count bucket label, from the if-chain in `categorize_threads`. -/
def runsCategory (n : Nat) : String :=
  if n = 0 then "0 runs"
  else if n = 1 then "1 run"
  else if n < 5 then toString n ++ " runs"
  else if n < 10 then "5-9 runs"
  else if n < 20 then "10-19 runs"
  else "20+ runs"

/-- The graph key a thread is filed under, when the Python condition
`thread.get('metadata') and thread['metadata'].get('graph_id')` is truthy:
the metadata mapping must be non-empty and hold a non-empty `graph_id`
value.  `none` means the thread is omitted from the graph partition. -/
def graphKey (t : Thread) : Option String :=
  match t.metadata with
  | none => none
  | some m =>
    if m.isEmpty then none
    else
      match lookupAssoc "graph_id" m with
      | none => none
      | some g => if g = "" then none else some g

/-- Whether the `graph_id` key is present in the metadata mapping at all
(regardless of Python truthiness of its value). -/
def graphFieldPresent (t : Thread) : Bool :=
  match t.metadata with
  | none => false
  | some m => (lookupAssoc "graph_id" m).isSome

/-! ## Categorization (`categorize_threads`) -/

/-- Append `t` to the bucket keyed `k`, creating the bucket at the end when
absent — exactly the `if key not in d: d[key] = []` / `d[key].append(t)`
idiom on an insertion-ordered Python dict. -/
def bucketAdd (m : List (String × List Thread)) (k : String) (t : Thread) :
    List (String × List Thread) :=
  match m with
  | [] => [(k, [t])]
  | (k', l) :: rest => if k' = k then (k', l ++ [t]) :: rest else (k', l) :: bucketAdd rest k t

/-- One loop step of `categorize_threads` for a single partition: file the
thread under its key when it has one, otherwise leave the partition alone. -/
def stepAdd (key : Thread → Option String) (m : List (String × List Thread)) (t : Thread) :
    List (String × List Thread) :=
  match key t with
  | some k => bucketAdd m k t
  | none => m

/-- The partition of `threads` induced by `key`, in source loop order. -/
def groupByKey (key : Thread → Option String) (threads : List Thread) :
    List (String × List Thread) :=
  threads.foldl (stepAdd key) []

/-- The category index built by `categorize_threads`: the source loops once
over the threads, updating the three independent dictionaries; each is the
corresponding `groupByKey` partition. -/
structure Categories where
  byGraph : List (String × List Thread)
  byStatus : List (String × List Thread)
  byRuns : List (String × List Thread)
  allThreads : List Thread
deriving DecidableEq

/-- `ThreadCleanup.categorize_threads`. -/
def categorize_threads (threads : List Thread) : Categories :=
  { byGraph := groupByKey graphKey threads
    byStatus := groupByKey (fun t => some (statusKey t)) threads
    byRuns := groupByKey (fun t => some (runsCategory t.runs.length)) threads
    allThreads := threads }

/-- Total number of threads filed across the buckets of a partition. -/
def sumSizes (m : List (String × List Thread)) : Nat :=
  (m.map (fun p => p.2.length)).sum

/-- `t` is filed in the bucket keyed `k` of partition `m`. -/
def InBucket (m : List (String × List Thread)) (k : String) (t : Thread) : Prop :=
  ∃ l, (k, l) ∈ m ∧ t ∈ l

/-! ## Menu choice resolution (`select_by_status` / `select_by_runs` / `select_by_graph`)

All three bucket menus share the same shape: print the buckets as options
`1..n`, option `n+1` is "go back to main menu", then run
`index = int(choice) - 1` and branch on the index.  A `choice` that does not
parse as an integer makes `int` raise `ValueError`, which propagates out of
the selection machinery to the catch-all in `interactive_clean`
(`sys.exit(1)`): that outcome is `fatalError` below. -/

/-- Outcome of entering one line at a bucket menu with `numBuckets` buckets. -/
inductive MenuOutcome
  | selected (index : Nat)
  | backToMain
  | emptySelection
  | fatalError
deriving DecidableEq

/-- Resolution of one line of input at a status / runs / graph menu. -/
def resolveBucketChoice (numBuckets : Nat) (choice : String) : MenuOutcome :=
  match pyInt choice with
  | none => .fatalError
  | some z =>
    let index : Int := z - 1
    if 0 ≤ index ∧ index < (numBuckets : Int) then .selected index.toNat
    else if index = (numBuckets : Int) then .backToMain
    else .emptySelection

/-! ## Run-bucket menu ordering (`select_by_runs`) -/

/-- Split a character list at every occurrence of `sep` (Python
`str.split(sep)`; for the single-space labels at hand it also matches
no-argument `str.split()`). -/
def splitOnChar (sep : Char) (cs : List Char) : List (List Char) :=
  match cs with
  | [] => [[]]
  | c :: rest =>
    let r := splitOnChar sep rest
    if c = sep then [] :: r
    else
      match r with
      | [] => [[c]]
      | h :: t => (c :: h) :: t

/-- First field of a split, as a string. -/
def headField (l : List (List Char)) : String := String.mk (l.headD [])

/-- `get_runs_value` from `select_by_runs`: the numeric lower bound a bucket
label is sorted by.  The two `int(...)` calls always succeed on labels
produced by `categorize_threads`; the `.getD 0` default mirrors the
`except: return 0` of the final branch and is unreachable in the `"-"`
branch for such labels. -/
def get_runs_value (category : String) : Int :=
  if category = "0 runs" then 0
  else if category = "1 run" then 1
  else if category.toList.contains '-' then
    (pyInt (headField (splitOnChar '-' category.toList))).getD 0
  else if category = "20+ runs" then 20
  else (pyInt (headField (splitOnChar ' ' category.toList))).getD 0

/-- The comparison `select_by_runs` sorts bucket labels by. -/
def runsLE (a b : String) : Prop := get_runs_value a ≤ get_runs_value b

instance : DecidableRel runsLE := fun _ _ => Int.decLe _ _

instance : IsTotal String runsLE := ⟨fun a b => le_total (get_runs_value a) (get_runs_value b)⟩

instance : IsTrans String runsLE := ⟨fun _ _ _ h1 h2 => le_trans h1 h2⟩

/-- The ordered list of run-bucket labels the menu displays:
`runs_categories.sort(key=get_runs_value)` applied to the dict keys in
insertion order.  Python `list.sort` is a stable sort, and a stable sort is
extensionally unique, so the stable `insertionSort` computes the same list. -/
def sortedRunsMenu (threads : List Thread) : List String :=
  List.insertionSort runsLE ((categorize_threads threads).byRuns.map Prod.fst)

/-! ## Time filters (`select_by_time`, `select_custom_date_range`) -/

/-- Creation timestamp of a thread as the filters see it: the `created_at`
field must be present and truthy, then it is `Z`-normalized and parsed; a
parse failure is swallowed by the `except: continue`. -/
def createdTs (t : Thread) : Option Int :=
  match t.created_at with
  | none => none
  | some s => if s = "" then none else parsePyIso (pyReplaceZ s)

/-- The `[start_time, end_time]` window `select_by_time` computes for menu
choices 1–4, against epoch time `now`. -/
def timeWindowFor (choice : String) (now : Int) : Option (Int × Int) :=
  if choice = "1" then some (now - 60 * 60, now)
  else if choice = "2" then some (now - 7 * 24 * 60 * 60, now)
  else if choice = "3" then some (now - 30 * 24 * 60 * 60, now)
  else if choice = "4" then some (0, now)
  else none

/-- The filter loop of `select_by_time`: keep threads whose parseable
creation time lies in the inclusive window. -/
def filterByTime (startTime endTime : Int) (threads : List Thread) : List Thread :=
  threads.filter fun t =>
    match createdTs t with
    | some ts => decide (startTime ≤ ts ∧ ts ≤ endTime)
    | none => false

/-- Cutoff parsing in `select_custom_date_range`: a date-only entry gets
` 00:00:00` appended before `fromisoformat`. -/
def parseCutoff (s : String) : Option Int :=
  if s.toList.contains ' ' then parsePyIso s
  else parsePyIso (s ++ " 00:00:00")

/-- The filter loop of `select_custom_date_range`: keep threads whose
parseable creation time is strictly before the cutoff. -/
def filterBeforeCutoff (cutoffTime : Int) (threads : List Thread) : List Thread :=
  threads.filter fun t =>
    match createdTs t with
    | some ts => decide (ts < cutoffTime)
    | none => false

/-! ## Deletion (`delete_threads`) -/

/-- What one DELETE call does for one thread: success, a non-success HTTP
status, or a raised exception. -/
inductive DelOutcome
  | ok
  | httpFail
  | exn
deriving DecidableEq

/-- Tally of the delete loop: the two counters and the thread ids attempted,
in order. -/
structure DelSummary where
  deleted : Nat
  failed : Nat
  attempted : List String
deriving DecidableEq

/-- The per-thread loop body of `delete_threads`, folded over the selection:
a non-success status or an exception increments `failed`, success increments
`deleted`, and the loop always moves on to the next thread. -/
def deleteStep (s : DelSummary) (item : String × DelOutcome) : DelSummary :=
  match item.2 with
  | .ok => { s with deleted := s.deleted + 1, attempted := s.attempted ++ [item.1] }
  | .httpFail => { s with failed := s.failed + 1, attempted := s.attempted ++ [item.1] }
  | .exn => { s with failed := s.failed + 1, attempted := s.attempted ++ [item.1] }

def deleteLoop (items : List (String × DelOutcome)) : DelSummary :=
  items.foldl deleteStep ⟨0, 0, []⟩

/-- `ThreadCleanup.delete_threads`, with the selection paired with each
delete call outcome: empty selection returns 0 immediately; a confirmation
other than case-insensitive `yes` aborts with 0 deletions and no DELETE
issued; otherwise the loop runs to completion.  Returns the function result
(`deleted`) together with the loop tally. -/
def delete_threads (confirm : String) (items : List (String × DelOutcome)) :
    Nat × DelSummary :=
  if items.isEmpty then (0, ⟨0, 0, []⟩)
  else if pyLower confirm ≠ "yes" then (0, ⟨0, 0, []⟩)
  else
    let s := deleteLoop items
    (s.deleted, s)

/-! ## Pagination (`interactive_clean`) -/

/-- A server whose full thread list is `L`, answering each fetch with the
next page of at most 1000 threads starting at the requested offset — the
mock server of the pagination property. -/
def sliceServer (L : List Thread) (offset : Nat) : List Thread :=
  (L.drop offset).take 1000

/-- The pagination loop of `interactive_clean` against an arbitrary server
function from offset to page: stop at the first empty page, otherwise extend
the accumulated list with the page, advance the offset by the number of
items actually received, and continue.  `fuel` bounds the number of
iterations; the results are the accumulated threads, the non-empty pages in
the order received, and whether the loop reached an empty page (rather than
running out of fuel). -/
def fetchPages (server : Nat → List Thread) : Nat → Nat → List Thread × List (List Thread) × Bool
  | 0, _ => ([], [], false)
  | fuel + 1, offset =>
    let page := server offset
    if page.isEmpty then ([], [], true)
    else
      let r := fetchPages server fuel (offset + page.length)
      (page ++ r.1, page :: r.2.1, r.2.2)

/-! ## Lemmas about `bucketAdd` and the categorize fold -/

theorem sumSizes_bucketAdd (m : List (String × List Thread)) (k : String) (t : Thread) :
    sumSizes (bucketAdd m k t) = sumSizes m + 1 := by
  induction m with
  | nil => simp [bucketAdd, sumSizes]
  | cons p rest ih =>
    obtain ⟨k', l⟩ := p
    by_cases h : k' = k
    · simp [bucketAdd, h, sumSizes]
      omega
    · simp [bucketAdd, h, sumSizes] at ih ⊢
      omega

theorem keys_bucketAdd (m : List (String × List Thread)) (k : String) (t : Thread) :
    (bucketAdd m k t).map Prod.fst =
      if k ∈ m.map Prod.fst then m.map Prod.fst else m.map Prod.fst ++ [k] := by
  induction m with
  | nil => simp [bucketAdd]
  | cons p rest ih =>
    obtain ⟨k', l⟩ := p
    by_cases h : k' = k
    · subst h; simp [bucketAdd]
    · by_cases hk : k ∈ rest.map Prod.fst
      · simp [bucketAdd, h, ih, hk, Ne.symm h]
      · simp [bucketAdd, h, ih, hk, Ne.symm h]

theorem nodupKeys_bucketAdd (m : List (String × List Thread)) (k : String) (t : Thread)
    (h : (m.map Prod.fst).Nodup) : ((bucketAdd m k t).map Prod.fst).Nodup := by
  rw [keys_bucketAdd]
  by_cases hk : k ∈ m.map Prod.fst
  · simpa [hk] using h
  · simp [hk, List.nodup_append, h]

theorem contents_bucketAdd {P : String → Thread → Prop} (m : List (String × List Thread))
    (k : String) (t : Thread)
    (hm : ∀ p ∈ m, ∀ x ∈ p.2, P p.1 x) (ht : P k t) :
    ∀ p ∈ bucketAdd m k t, ∀ x ∈ p.2, P p.1 x := by
  induction m with
  | nil =>
    intro p hp x hx
    simp [bucketAdd] at hp
    subst hp
    simp at hx
    subst hx
    exact ht
  | cons q rest ih =>
    obtain ⟨k', l⟩ := q
    by_cases h : k' = k
    · subst h
      intro p hp x hx
      simp [bucketAdd] at hp
      rcases hp with rfl | hp
      · simp at hx
        rcases hx with hx | rfl
        · exact hm (k', l) (List.mem_cons_self _ _) x hx
        · exact ht
      · exact hm p (List.mem_cons_of_mem _ hp) x hx
    · intro p hp x hx
      simp [bucketAdd, h] at hp
      rcases hp with rfl | hp
      · exact hm (k', l) (List.mem_cons_self _ _) x hx
      · exact ih (fun q hq => hm q (List.mem_cons_of_mem _ hq)) p hp x hx

theorem inBucket_bucketAdd_self (m : List (String × List Thread)) (k : String) (t : Thread) :
    InBucket (bucketAdd m k t) k t := by
  induction m with
  | nil => exact ⟨[t], by simp [bucketAdd]⟩
  | cons q rest ih =>
    obtain ⟨k', l⟩ := q
    by_cases h : k' = k
    · subst h
      exact ⟨l ++ [t], by simp [bucketAdd]⟩
    · obtain ⟨l', hl', ht'⟩ := ih
      exact ⟨l', by simp [bucketAdd, h]; right; exact hl', ht'⟩

theorem inBucket_mono_bucketAdd (m : List (String × List Thread)) (k : String) (t : Thread)
    {k₀ : String} {t₀ : Thread} (h : InBucket m k₀ t₀) :
    InBucket (bucketAdd m k t) k₀ t₀ := by
  induction m with
  | nil => simp [InBucket] at h
  | cons q rest ih =>
    obtain ⟨k', l⟩ := q
    obtain ⟨l₀, hl₀, ht₀⟩ := h
    by_cases h : k' = k
    · subst h
      have hb : bucketAdd ((k', l) :: rest) k' t = (k', l ++ [t]) :: rest := by
        simp [bucketAdd]
      rcases List.mem_cons.mp hl₀ with heq | hmem
      · have hk : k₀ = k' := congrArg Prod.fst heq
        have hl : l₀ = l := congrArg Prod.snd heq
        subst hk
        subst hl
        exact ⟨l₀ ++ [t], by rw [hb]; exact List.mem_cons_self _ _,
          List.mem_append_left _ ht₀⟩
      · exact ⟨l₀, by rw [hb]; exact List.mem_cons_of_mem _ hmem, ht₀⟩
    · have hb : bucketAdd ((k', l) :: rest) k t = (k', l) :: bucketAdd rest k t := by
        simp [bucketAdd, h]
      rcases List.mem_cons.mp hl₀ with heq | hmem
      · exact ⟨l₀, by rw [hb]; exact List.mem_cons.mpr (Or.inl heq), ht₀⟩
      · obtain ⟨l₁, hl₁, ht₁⟩ := ih ⟨l₀, hmem, ht₀⟩
        exact ⟨l₁, by rw [hb]; exact List.mem_cons_of_mem _ hl₁, ht₁⟩

theorem foldl_stepAdd_sumSizes (key : Thread → Option String) (ts : List Thread)
    (m : List (String × List Thread)) :
    sumSizes (ts.foldl (stepAdd key) m) =
      sumSizes m + (ts.filter (fun t => (key t).isSome)).length := by
  induction ts generalizing m with
  | nil => simp
  | cons t ts ih =>
    simp only [List.foldl_cons, List.filter_cons]
    rw [ih]
    cases hk : key t with
    | none => simp [stepAdd, hk]
    | some k => simp [stepAdd, hk, sumSizes_bucketAdd]; omega

theorem foldl_stepAdd_contents (key : Thread → Option String) (ts : List Thread)
    (m : List (String × List Thread))
    (hm : ∀ p ∈ m, ∀ x ∈ p.2, key x = some p.1) :
    ∀ p ∈ ts.foldl (stepAdd key) m, ∀ x ∈ p.2, key x = some p.1 := by
  induction ts generalizing m with
  | nil => simpa using hm
  | cons t ts ih =>
    simp only [List.foldl_cons]
    apply ih
    cases hk : key t with
    | none => simpa [stepAdd, hk] using hm
    | some k =>
      simp only [stepAdd, hk]
      exact contents_bucketAdd (P := fun s x => key x = some s) m k t hm hk

theorem foldl_stepAdd_nodupKeys (key : Thread → Option String) (ts : List Thread)
    (m : List (String × List Thread)) (hm : (m.map Prod.fst).Nodup) :
    ((ts.foldl (stepAdd key) m).map Prod.fst).Nodup := by
  induction ts generalizing m with
  | nil => simpa using hm
  | cons t ts ih =>
    simp only [List.foldl_cons]
    apply ih
    cases hk : key t with
    | none => simpa [stepAdd, hk] using hm
    | some k =>
      simp only [stepAdd, hk]
      exact nodupKeys_bucketAdd m k t hm

theorem foldl_stepAdd_mono (key : Thread → Option String) (ts : List Thread)
    (m : List (String × List Thread)) {k₀ : String} {t₀ : Thread}
    (h : InBucket m k₀ t₀) : InBucket (ts.foldl (stepAdd key) m) k₀ t₀ := by
  induction ts generalizing m with
  | nil => simpa using h
  | cons t ts ih =>
    simp only [List.foldl_cons]
    apply ih
    cases hk : key t with
    | none => simpa [stepAdd, hk] using h
    | some k =>
      simp only [stepAdd, hk]
      exact inBucket_mono_bucketAdd m k t h

theorem foldl_stepAdd_mem (key : Thread → Option String) (ts : List Thread)
    (m : List (String × List Thread)) {t : Thread} {g : String}
    (ht : t ∈ ts) (hg : key t = some g) :
    InBucket (ts.foldl (stepAdd key) m) g t := by
  induction ts generalizing m with
  | nil => cases ht
  | cons t' ts ih =>
    simp only [List.foldl_cons]
    rcases List.mem_cons.mp ht with rfl | hmem
    · apply foldl_stepAdd_mono
      simp only [stepAdd, hg]
      exact inBucket_bucketAdd_self m g t
    · exact ih _ hmem

/-- C1 (amended): `categorize_threads` files every thread in exactly one
status bucket and one run-count bucket (bucket keys are distinct, each bucket
holds exactly the threads with its key, sizes sum to the input length), and
the graph partition holds exactly the threads whose metadata carries a
non-empty `graph_id`, its sizes summing to the count of such threads. -/
theorem categorize_threads_partitions (threads : List Thread) :
    (((categorize_threads threads).byStatus.map Prod.fst).Nodup ∧
      (∀ p ∈ (categorize_threads threads).byStatus, ∀ t ∈ p.2, statusKey t = p.1) ∧
      (∀ t ∈ threads, InBucket (categorize_threads threads).byStatus (statusKey t) t) ∧
      sumSizes (categorize_threads threads).byStatus = threads.length) ∧
    (((categorize_threads threads).byRuns.map Prod.fst).Nodup ∧
      (∀ p ∈ (categorize_threads threads).byRuns, ∀ t ∈ p.2,
        runsCategory t.runs.length = p.1) ∧
      (∀ t ∈ threads, InBucket (categorize_threads threads).byRuns
        (runsCategory t.runs.length) t) ∧
      sumSizes (categorize_threads threads).byRuns = threads.length) ∧
    (((categorize_threads threads).byGraph.map Prod.fst).Nodup ∧
      (∀ p ∈ (categorize_threads threads).byGraph, ∀ t ∈ p.2, graphKey t = some p.1) ∧
      (∀ t ∈ threads, ∀ g, graphKey t = some g →
        InBucket (categorize_threads threads).byGraph g t) ∧
      sumSizes (categorize_threads threads).byGraph =
        (threads.filter (fun t => (graphKey t).isSome)).length) := by
  simp only [categorize_threads, groupByKey]
  refine ⟨⟨?_, ?_, ?_, ?_⟩, ⟨?_, ?_, ?_, ?_⟩, ⟨?_, ?_, ?_, ?_⟩⟩
  · exact foldl_stepAdd_nodupKeys _ threads [] (by simp)
  · intro p hp t ht
    exact Option.some.inj
      (foldl_stepAdd_contents (fun t => some (statusKey t)) threads [] (by simp) p hp t ht)
  · intro t ht
    exact foldl_stepAdd_mem _ threads [] ht rfl
  · have h := foldl_stepAdd_sumSizes (fun t => some (statusKey t)) threads []
    simpa [sumSizes] using h
  · exact foldl_stepAdd_nodupKeys _ threads [] (by simp)
  · intro p hp t ht
    exact Option.some.inj
      (foldl_stepAdd_contents (fun t => some (runsCategory t.runs.length)) threads []
        (by simp) p hp t ht)
  · intro t ht
    exact foldl_stepAdd_mem _ threads [] ht rfl
  · have h := foldl_stepAdd_sumSizes (fun t => some (runsCategory t.runs.length)) threads []
    simpa [sumSizes] using h
  · exact foldl_stepAdd_nodupKeys _ threads [] (by simp)
  · intro p hp t ht
    exact foldl_stepAdd_contents graphKey threads [] (by simp) p hp t ht
  · intro t ht g hg
    exact foldl_stepAdd_mem _ threads [] ht hg
  · have h := foldl_stepAdd_sumSizes graphKey threads []
    simpa [sumSizes] using h

/-- The C1 counterexample thread: its metadata carries the `graph_id` key,
but with an empty (Python-falsy) value. -/
def emptyGraphThread : Thread :=
  { thread_id := "t0", created_at := none, status := none, runs := [],
    metadata := some [("graph_id", "")] }

/-- C1 counterexample: a thread whose `graph_id` field is present but empty
is left out of the graph partition, so the graph buckets sum to
0 while one thread has the field present — the claimed equality with the
field-present count fails. -/
theorem graph_field_present_mismatch :
    graphFieldPresent emptyGraphThread = true ∧
    sumSizes (categorize_threads [emptyGraphThread]).byGraph = 0 ∧
    ([emptyGraphThread].filter graphFieldPresent).length = 1 := by decide

/-- C2: the run-count bucket label is a function of the run count alone,
with exactly the claimed ranges — 0, 1, the exact-count labels 2–4, 5–9,
10–19, and 20 or more — including all six claimed boundary counts. -/
theorem runsCategory_buckets :
    runsCategory 0 = "0 runs" ∧ runsCategory 1 = "1 run" ∧
    runsCategory 2 = "2 runs" ∧ runsCategory 3 = "3 runs" ∧ runsCategory 4 = "4 runs" ∧
    (∀ k : Fin 5, runsCategory (5 + (k : Nat)) = "5-9 runs") ∧
    (∀ k : Fin 10, runsCategory (10 + (k : Nat)) = "10-19 runs") ∧
    (∀ k : Nat, runsCategory (20 + k) = "20+ runs") ∧
    runsCategory 4 = "4 runs" ∧ runsCategory 5 = "5-9 runs" ∧
    runsCategory 9 = "5-9 runs" ∧ runsCategory 10 = "10-19 runs" ∧
    runsCategory 19 = "10-19 runs" ∧ runsCategory 20 = "20+ runs" := by
  refine ⟨by decide, by decide, by decide, by decide, by decide, by decide, by decide,
    ?_, by decide, by decide, by decide, by decide, by decide, by decide⟩
  intro k
  unfold runsCategory
  rw [if_neg (by omega), if_neg (by omega), if_neg (by omega), if_neg (by omega),
    if_neg (by omega)]

/-- C3 counterexample: at a bucket menu with two buckets, the input `abc`
makes `int(choice)` raise `ValueError`, which aborts the run — not the
claimed silently-empty selection. -/
theorem menu_nonnumeric_fatal :
    resolveBucketChoice 2 "abc" = MenuOutcome.fatalError ∧
    resolveBucketChoice 2 "abc" ≠ MenuOutcome.emptySelection ∧
    resolveBucketChoice 2 "abc" ≠ MenuOutcome.backToMain := by decide

/-- C3 (amended): at the status/runs/graph menus, inputs that parse as an
integer are recovered locally — a valid index selects that bucket, the index
exactly equal to the back slot returns to the main menu, and any other
integer yields a silently empty selection — but an input that does not parse
as an integer raises and is fatal to the run. -/
theorem menu_choice_resolution (numBuckets : Nat) (choice : String) :
    (pyInt choice = none →
      resolveBucketChoice numBuckets choice = MenuOutcome.fatalError) ∧
    (∀ z : Int, pyInt choice = some z →
      ((0 ≤ z - 1 → z - 1 < (numBuckets : Int) →
          resolveBucketChoice numBuckets choice = MenuOutcome.selected (z - 1).toNat) ∧
        (z - 1 = (numBuckets : Int) →
          resolveBucketChoice numBuckets choice = MenuOutcome.backToMain) ∧
        (z - 1 < 0 ∨ (numBuckets : Int) < z - 1 →
          resolveBucketChoice numBuckets choice = MenuOutcome.emptySelection))) := by
  constructor
  · intro h
    simp [resolveBucketChoice, h]
  · intro z hz
    refine ⟨?_, ?_, ?_⟩
    · intro h1 h2
      simp only [resolveBucketChoice, hz]
      rw [if_pos ⟨h1, h2⟩]
    · intro h
      have hno : ¬(0 ≤ z - 1 ∧ z - 1 < (numBuckets : Int)) := by omega
      simp only [resolveBucketChoice, hz]
      rw [if_neg hno, if_pos h]
    · intro h
      have hno : ¬(0 ≤ z - 1 ∧ z - 1 < (numBuckets : Int)) := by omega
      have hnb : ¬(z - 1 = (numBuckets : Int)) := by omega
      simp only [resolveBucketChoice, hz]
      rw [if_neg hno, if_neg hnb]

/-- Witness for the amended C3 theorem at concrete inputs. -/
theorem menu_choice_resolution_witness :
    resolveBucketChoice 2 "3" = MenuOutcome.backToMain ∧
    resolveBucketChoice 2 "9" = MenuOutcome.emptySelection ∧
    resolveBucketChoice 2 "1" = MenuOutcome.selected 0 ∧
    resolveBucketChoice 2 "zzz" = MenuOutcome.fatalError := by
  refine ⟨?_, ?_, ?_, ?_⟩
  · exact ((menu_choice_resolution 2 "3").2 3 (by decide)).2.1 (by decide)
  · exact ((menu_choice_resolution 2 "9").2 9 (by decide)).2.2 (Or.inr (by decide))
  · exact ((menu_choice_resolution 2 "1").2 1 (by decide)).1 (by decide) (by decide)
  · exact (menu_choice_resolution 2 "zzz").1 (by decide)

theorem foldl_deleteStep (items : List (String × DelOutcome)) (s0 : DelSummary) :
    (items.foldl deleteStep s0).deleted + (items.foldl deleteStep s0).failed
        = s0.deleted + s0.failed + items.length ∧
    (items.foldl deleteStep s0).attempted = s0.attempted ++ items.map Prod.fst := by
  induction items generalizing s0 with
  | nil => simp
  | cons it items ih =>
    simp only [List.foldl_cons, List.map_cons, List.length_cons]
    obtain ⟨h1, h2⟩ := ih (deleteStep s0 it)
    constructor
    · rw [h1]
      cases ho : it.2 <;> simp [deleteStep, ho] <;> omega
    · rw [h2]
      cases ho : it.2 <;> simp [deleteStep, ho]

/-- The concrete five-element selection of the C4 scenario: the third delete
call raises, the other four succeed. -/
def exampleFive : List (String × DelOutcome) :=
  [("t1", .ok), ("t2", .ok), ("t3", .exn), ("t4", .ok), ("t5", .ok)]

/-- C4: with a non-empty confirmed selection, the delete loop attempts one
DELETE per thread in the original order, failures are counted without
stopping the loop, and deleted + failed equals the selection size; in the
five-thread scenario with the third call raising, the tally is exactly
4 deleted / 1 failed with all five attempted in order. -/
theorem delete_threads_tally (confirm : String) (items : List (String × DelOutcome))
    (hne : items ≠ []) (hyes : pyLower confirm = "yes") :
    ((delete_threads confirm items).2.deleted + (delete_threads confirm items).2.failed
        = items.length ∧
      (delete_threads confirm items).2.attempted = items.map Prod.fst) ∧
    (delete_threads "yes" exampleFive).2 = ⟨4, 1, ["t1", "t2", "t3", "t4", "t5"]⟩ := by
  refine ⟨?_, by decide⟩
  have hni : items.isEmpty = false := by simpa [List.isEmpty_iff] using hne
  simp only [delete_threads, hni, Bool.false_eq_true, if_false, hyes, ne_eq,
    not_true_eq_false, reduceIte, deleteLoop]
  have h := foldl_deleteStep items ⟨0, 0, []⟩
  simpa using h

/-- Witness for C4 at the concrete five-element selection. -/
theorem delete_threads_tally_witness :
    (delete_threads "yes" exampleFive).2 = ⟨4, 1, ["t1", "t2", "t3", "t4", "t5"]⟩ :=
  (delete_threads_tally "yes" exampleFive (by decide) (by decide)).2

/-- C8: a non-empty selection with a final confirmation other than
case-insensitive `yes` aborts with zero deletions and no DELETE issued. -/
theorem delete_threads_refuses (confirm : String) (items : List (String × DelOutcome))
    (hne : items ≠ []) (hno : pyLower confirm ≠ "yes") :
    delete_threads confirm items = (0, ⟨0, 0, []⟩) := by
  have hni : items.isEmpty = false := by simpa [List.isEmpty_iff] using hne
  simp [delete_threads, hni, hno]

/-- Witness for C8: answering `No` to the confirmation deletes nothing. -/
theorem delete_threads_refuses_witness :
    delete_threads "No" [("t1", DelOutcome.ok)] = (0, ⟨0, 0, []⟩) :=
  delete_threads_refuses "No" [("t1", DelOutcome.ok)] (by decide) (by decide)

/-- The C5 scenario thread created one second before midnight of the cutoff
day. -/
def earlyThread : Thread :=
  { thread_id := "early", created_at := some "2024-01-14T23:59:59Z", status := none,
    runs := [], metadata := none }

/-- The C5 scenario thread created one second after midnight of the cutoff
day. -/
def lateThread : Thread :=
  { thread_id := "late", created_at := some "2024-01-15T00:00:01Z", status := none,
    runs := [], metadata := none }

/-- C5: the custom-cutoff filter selects exactly the threads whose parseable
creation time is strictly below the cutoff; with cutoff `2024-01-15`
(midnight, epoch 1705276800) the thread created at `2024-01-14T23:59:59Z` is
selected and the one created at `2024-01-15T00:00:01Z` is not. -/
theorem custom_cutoff_strict (cutoffTime : Int) (threads : List Thread) (t : Thread) :
    (t ∈ filterBeforeCutoff cutoffTime threads ↔
      t ∈ threads ∧ ∃ ts, createdTs t = some ts ∧ ts < cutoffTime) ∧
    parseCutoff "2024-01-15" = some 1705276800 ∧
    filterBeforeCutoff 1705276800 [earlyThread, lateThread] = [earlyThread] := by
  refine ⟨?_, by decide, by decide⟩
  rw [filterBeforeCutoff, List.mem_filter]
  constructor
  · rintro ⟨hmem, hp⟩
    refine ⟨hmem, ?_⟩
    cases hc : createdTs t with
    | none => simp [hc] at hp
    | some ts =>
      simp only [hc] at hp
      exact ⟨ts, rfl, of_decide_eq_true hp⟩
  · rintro ⟨hmem, ts, hts, hlt⟩
    refine ⟨hmem, ?_⟩
    simp only [hts]
    exact decide_eq_true hlt

/-- The C7 boundary thread, created exactly at `now - 1 hour` for
`now = 90000`. -/
def hourBoundaryThread : Thread :=
  { thread_id := "boundary", created_at := some "1970-01-02T00:00:00Z", status := none,
    runs := [], metadata := none }

/-- C7: the four fixed windows are the claimed `[start, end]` intervals
against now — last hour, last week, last month, and `[0, now]` for all
time — the filter keeps exactly the threads whose parseable creation time
lies inside inclusively, and a thread created exactly at `now - 1 hour`
(epoch 86400 with now = 90000) is kept by the last-hour filter. -/
theorem time_window_inclusive (now startTime endTime : Int) (threads : List Thread)
    (t : Thread) :
    timeWindowFor "1" now = some (now - 3600, now) ∧
    timeWindowFor "2" now = some (now - 604800, now) ∧
    timeWindowFor "3" now = some (now - 2592000, now) ∧
    timeWindowFor "4" now = some (0, now) ∧
    (t ∈ filterByTime startTime endTime threads ↔
      t ∈ threads ∧ ∃ ts, createdTs t = some ts ∧ startTime ≤ ts ∧ ts ≤ endTime) ∧
    hourBoundaryThread ∈ filterByTime (90000 - 3600) 90000 [hourBoundaryThread] := by
  refine ⟨?_, ?_, ?_, ?_, ?_, by decide⟩
  · rw [timeWindowFor, if_pos rfl]
    norm_num
  · rw [timeWindowFor, if_neg (by decide), if_pos rfl]
    norm_num
  · rw [timeWindowFor, if_neg (by decide), if_neg (by decide), if_pos rfl]
    norm_num
  · rw [timeWindowFor, if_neg (by decide), if_neg (by decide), if_neg (by decide),
      if_pos rfl]
  · rw [filterByTime, List.mem_filter]
    constructor
    · rintro ⟨hmem, hp⟩
      refine ⟨hmem, ?_⟩
      cases hc : createdTs t with
      | none => simp [hc] at hp
      | some ts =>
        simp only [hc] at hp
        exact ⟨ts, rfl, of_decide_eq_true hp⟩
    · rintro ⟨hmem, ts, hts, hin⟩
      refine ⟨hmem, ?_⟩
      simp only [hts]
      exact decide_eq_true hin

/-- The numeric lower bound `get_runs_value` extracts from each label
`runsCategory` can produce: 0, 1, the exact count for 2–4, then 5, 10, 20. -/
theorem get_runs_value_lower_bound (n : Nat) :
    get_runs_value (runsCategory n) =
      if n = 0 then 0 else if n = 1 then 1 else if n < 5 then (n : Int)
      else if n < 10 then 5 else if n < 20 then 10 else 20 := by
  by_cases h0 : n = 0
  · subst h0; decide
  by_cases h1 : n = 1
  · subst h1; decide
  by_cases h5 : n < 5
  · have h2 : 2 ≤ n := by omega
    rw [if_neg h0, if_neg h1, if_pos h5]
    unfold runsCategory
    rw [if_neg h0, if_neg h1, if_pos h5]
    interval_cases n
    · decide
    · decide
    · decide
  by_cases h10 : n < 10
  · rw [if_neg h0, if_neg h1, if_neg h5, if_pos h10]
    unfold runsCategory
    rw [if_neg h0, if_neg h1, if_neg h5, if_pos h10]
    decide
  by_cases h20 : n < 20
  · rw [if_neg h0, if_neg h1, if_neg h5, if_neg h10, if_pos h20]
    unfold runsCategory
    rw [if_neg h0, if_neg h1, if_neg h5, if_neg h10, if_pos h20]
    decide
  · rw [if_neg h0, if_neg h1, if_neg h5, if_neg h10, if_neg h20]
    unfold runsCategory
    rw [if_neg h0, if_neg h1, if_neg h5, if_neg h10, if_neg h20]
    decide

/-- A thread with twenty runs, categorized before `runs0Thread`. -/
def runs20Thread : Thread :=
  { thread_id := "many", created_at := none, status := none,
    runs := List.replicate 20 "r", metadata := none }

/-- A thread with no runs, categorized after `runs20Thread`. -/
def runs0Thread : Thread :=
  { thread_id := "zero", created_at := none, status := none, runs := [],
    metadata := none }

/-- C9: the ByRuns menu lists the bucket labels sorted ascending by their
numeric lower bound (`get_runs_value`, which maps the labels to
0, 1, 2, 3, 4, 5, 10, 20) rather than insertion order: for threads with 20
then 0 runs the insertion order is `20+ runs`, `0 runs`, but the menu shows
`0 runs` first. -/
theorem runs_menu_sorted (threads : List Thread) :
    List.Sorted runsLE (sortedRunsMenu threads) ∧
    (∀ n : Nat, get_runs_value (runsCategory n) =
      if n = 0 then 0 else if n = 1 then 1 else if n < 5 then (n : Int)
      else if n < 10 then 5 else if n < 20 then 10 else 20) ∧
    (categorize_threads [runs20Thread, runs0Thread]).byRuns.map Prod.fst
        = ["20+ runs", "0 runs"] ∧
    sortedRunsMenu [runs20Thread, runs0Thread] = ["0 runs", "20+ runs"] := by
  exact ⟨List.sorted_insertionSort _ _, get_runs_value_lower_bound, by decide, by decide⟩

/-- The C10 thread whose `created_at` does not parse as a timestamp. -/
def garbageThread : Thread :=
  { thread_id := "g", created_at := some "not-a-date", status := none, runs := [],
    metadata := none }

/-- The C10 thread with no `created_at` field at all. -/
def missingDateThread : Thread :=
  { thread_id := "m", created_at := none, status := none, runs := [],
    metadata := none }

/-- C10: every time filter — the fixed windows and the custom cutoff —
silently drops threads whose `created_at` is absent or unparseable, so even
the all-time window `[0, now]` can select strictly fewer threads than the
full set. -/
theorem unparseable_created_at_excluded :
    (∀ startTime endTime : Int, ∀ threads : List Thread, ∀ t : Thread,
        createdTs t = none → t ∉ filterByTime startTime endTime threads) ∧
    (∀ cutoffTime : Int, ∀ threads : List Thread, ∀ t : Thread,
        createdTs t = none → t ∉ filterBeforeCutoff cutoffTime threads) ∧
    timeWindowFor "4" 1000 = some (0, 1000) ∧
    createdTs garbageThread = none ∧
    createdTs missingDateThread = none ∧
    filterByTime 0 1000 [garbageThread, missingDateThread] = [] := by
  refine ⟨?_, ?_, by decide, by decide, by decide, by decide⟩
  · intro s e threads t hnone hmem
    obtain ⟨_, hp⟩ := List.mem_filter.mp hmem
    simp [hnone] at hp
  · intro c threads t hnone hmem
    obtain ⟨_, hp⟩ := List.mem_filter.mp hmem
    simp [hnone] at hp

/-- Witness for C10: the unparseable-date thread is not selected by the
all-time filter even though it is in the input. -/
theorem unparseable_created_at_excluded_witness :
    garbageThread ∉ filterByTime 0 1000 [garbageThread] :=
  unparseable_created_at_excluded.1 0 1000 [garbageThread] garbageThread (by decide)

theorem fetchPages_flatten (server : Nat → List Thread) (fuel offset : Nat) :
    (fetchPages server fuel offset).1 = (fetchPages server fuel offset).2.1.flatten ∧
    (fetchPages server fuel offset).2.1.all (fun p => !p.isEmpty) = true := by
  induction fuel generalizing offset with
  | zero => simp [fetchPages]
  | succ fuel ih =>
    simp only [fetchPages]
    by_cases hp : (server offset).isEmpty = true
    · simp [hp]
    · obtain ⟨h1, h2⟩ := ih (offset + (server offset).length)
      simp [hp, h1, h2]

theorem fetchPages_slice (L : List Thread) (fuel offset : Nat)
    (hfuel : 0 < fuel) (hbound : L.length < offset + fuel) :
    (fetchPages (sliceServer L) fuel offset).1 = L.drop offset ∧
    (fetchPages (sliceServer L) fuel offset).2.2 = true := by
  induction fuel generalizing offset with
  | zero => omega
  | succ fuel ih =>
    simp only [fetchPages]
    by_cases hp : (sliceServer L offset).isEmpty = true
    · have hdrop : L.drop offset = [] := by
        have h := List.isEmpty_iff.mp hp
        rcases hd : L.drop offset with _ | ⟨a, l⟩
        · rfl
        · rw [sliceServer, hd] at h
          simp at h
      simp [hp, hdrop]
    · have hne : L.drop offset ≠ [] := by
        intro hd
        exact hp (by simp [sliceServer, hd])
      have hlen : 0 < (sliceServer L offset).length := by
        rcases hq : sliceServer L offset with _ | ⟨a, l⟩
        · exact absurd (by simp [hq]) hp
        · simp
      have hofflt : offset < L.length := by
        by_contra hge
        exact hne (List.drop_eq_nil_of_le (by omega))
      have hkey : sliceServer L offset ++ L.drop (offset + (sliceServer L offset).length)
          = L.drop offset := by
        have hdd : L.drop (offset + (sliceServer L offset).length)
            = (L.drop offset).drop (sliceServer L offset).length := by
          rw [List.drop_drop]
        rw [hdd, sliceServer]
        rcases le_or_lt (L.drop offset).length 1000 with hle | hgt
        · rw [List.take_of_length_le hle, List.drop_length]
          simp
        · have h1000 : ((L.drop offset).take 1000).length = 1000 := by
            rw [List.length_take]
            omega
          rw [h1000, List.take_append_drop]
      obtain ⟨ih1, ih2⟩ := ih (offset + (sliceServer L offset).length) (by omega) (by omega)
      simp only [hp, if_false]
      constructor
      · simpa [ih1] using hkey
      · simpa using ih2

/-- C6: for every server response function, the pagination loop accumulates
exactly the concatenation of the non-empty pages in the order received
(advancing the offset by the number of items of each); and against a server
serving slices of a fixed thread list `L` (pages of at most 1000, then an
empty page), the loop terminates at the first empty page with the full list
accumulated. -/
theorem pagination_accumulates (server : Nat → List Thread) (fuel offset : Nat)
    (L : List Thread) :
    ((fetchPages server fuel offset).1 = (fetchPages server fuel offset).2.1.flatten ∧
      (fetchPages server fuel offset).2.1.all (fun p => !p.isEmpty) = true) ∧
    ((fetchPages (sliceServer L) (L.length + 1) 0).1 = L ∧
      (fetchPages (sliceServer L) (L.length + 1) 0).2.2 = true) := by
  refine ⟨fetchPages_flatten server fuel offset, ?_, ?_⟩
  · simpa using (fetchPages_slice L (L.length + 1) 0 (by omega) (by omega)).1
  · exact (fetchPages_slice L (L.length + 1) 0 (by omega) (by omega)).2

/-- A sample thread with status `idle` for the C1 witness. -/
def idleThread : Thread :=
  { thread_id := "s1", created_at := none, status := some "idle", runs := [],
    metadata := none }

/-- Witness for C1 at a one-thread input: the thread lands in its status
bucket. -/
theorem categorize_threads_partitions_witness :
    InBucket (categorize_threads [idleThread]).byStatus (statusKey idleThread) idleThread :=
  (categorize_threads_partitions [idleThread]).1.2.2.1 idleThread (by decide)
